import Mathlib

/-!
Verification of the core computation of the `TestePythonVercel` repository:
the budget totals / PDF rendering pipeline (`services/budget_pdf.py`) and
the image variant pipeline (`app.py`).

Modelling conventions:
* Python strings are lists of Unicode codepoints (`Text := List Nat`).
* Python floats are idealized as rationals (`ℚ`); `round(x, n)` and the
  fixed-point string formatters use round-half-to-even, as CPython does.
* Fallible Python calls (a raising EXIF parser, a raising transpose, a
  raising JPEG encoder) are embedded as `Except`/`Option` valued functions;
  a `try/except` block becomes a `match` collapsing the error branch.
-/

namespace TPV

/-- A Python `str`, as its list of Unicode codepoints. -/
abbrev Text := List Nat

/-- Codepoints of a Lean string literal (used to transcribe the Python
string literals appearing in the source). -/
def codes (s : String) : Text := s.data.map Char.toNat

/-- Round-half-to-even of a rational to an integer, the rounding used by
CPython's `round` builtin and its fixed-point string formatting. -/
def roundHalfEven (x : ℚ) : ℤ :=
  if x - ⌊x⌋ < 1/2 then ⌊x⌋
  else if 1/2 < x - ⌊x⌋ then ⌊x⌋ + 1
  else if ⌊x⌋ % 2 = 0 then ⌊x⌋ else ⌊x⌋ + 1

/-- Python `round(x, 2)`. -/
def round2 (x : ℚ) : ℚ := (roundHalfEven (x * 100) : ℚ) / 100

lemma roundHalfEven_intCast (n : ℤ) : roundHalfEven (n : ℚ) = n := by
  have h : ((n : ℚ)) - (⌊(n : ℚ)⌋ : ℚ) < 1/2 := by
    rw [Int.floor_intCast, sub_self]; norm_num
  rw [roundHalfEven, if_pos h, Int.floor_intCast]

lemma round2_eq_self {x : ℚ} (n : ℤ) (h : x * 100 = (n : ℚ)) : round2 x = x := by
  have hx : x = (n : ℚ) / 100 := (eq_div_iff (by norm_num)).mpr h
  calc (roundHalfEven (x * 100) : ℚ) / 100
      = (n : ℚ) / 100 := by rw [h, roundHalfEven_intCast]
    _ = x := hx.symm

/-- One budget line item, as consumed by `_calc_totals` /
`generate_budget_pdf` (the dict produced by pydantic's `model_dump`):
a description string, a quantity and a unit price.  `quantity` and
`unit_price` are read through `float(...)` in the source, so both are
modelled as rationals. -/
structure BudgetItem where
  description : Text
  quantity : ℚ
  unit_price : ℚ
deriving DecidableEq

/-- The dict returned by `_calc_totals`. -/
structure Totals where
  subtotal : ℚ
  discount : ℚ
  tax : ℚ
  total : ℚ
deriving DecidableEq

/-- `_calc_totals` from `services/budget_pdf.py`: accumulate
`qty * unit_price` over the items, apply the discount percentage, floor the
discounted total at 0, apply the tax percentage, and round each reported
figure to 2 decimal places at the end.  (The source's `discount_percent or
0.0` / `tax_percent or 0.0` only replaces `None`/`0.0` by `0.0`, which is
the identity on the rational arguments used here.) -/
def calcTotals (items : List BudgetItem) (discount_percent tax_percent : ℚ) : Totals :=
  let subtotal := items.foldl (fun acc it => acc + it.quantity * it.unit_price) 0
  let discount := discount_percent / 100 * subtotal
  let total_after_discount := max (subtotal - discount) 0
  let tax := tax_percent / 100 * total_after_discount
  let grand_total := total_after_discount + tax
  ⟨round2 subtotal, round2 discount, round2 tax, round2 grand_total⟩

/-- Exact (unrounded) subtotal of a list of items. -/
def subtotalOf (items : List BudgetItem) : ℚ :=
  (items.map (fun it => it.quantity * it.unit_price)).sum

lemma foldl_subtotal (items : List BudgetItem) (acc : ℚ) :
    items.foldl (fun a it => a + it.quantity * it.unit_price) acc
      = acc + subtotalOf items := by
  induction items generalizing acc with
  | nil => simp [subtotalOf]
  | cons it rest ih =>
      simp only [List.foldl_cons, subtotalOf, List.map_cons, List.sum_cons]
      rw [ih]
      simp only [subtotalOf]
      ring

lemma roundHalfEven_nonneg {x : ℚ} (hx : 0 ≤ x) : 0 ≤ roundHalfEven x := by
  have h0 : (0 : ℤ) ≤ ⌊x⌋ := Int.floor_nonneg.mpr hx
  unfold roundHalfEven
  split_ifs <;> omega

lemma round2_nonneg {x : ℚ} (hx : 0 ≤ x) : 0 ≤ round2 x := by
  have : 0 ≤ roundHalfEven (x * 100) := roundHalfEven_nonneg (by positivity)
  unfold round2
  positivity

lemma calcTotals_eq (items : List BudgetItem) (dp tp : ℚ) :
    calcTotals items dp tp =
      { subtotal := round2 (subtotalOf items)
        discount := round2 (dp / 100 * subtotalOf items)
        tax := round2 (tp / 100 * max (subtotalOf items - dp / 100 * subtotalOf items) 0)
        total := round2 (max (subtotalOf items - dp / 100 * subtotalOf items) 0
                  + tp / 100 * max (subtotalOf items - dp / 100 * subtotalOf items) 0) } := by
  simp only [calcTotals, foldl_subtotal, zero_add]

/-- C1: `_calc_totals` returns the 2-decimal roundings of
`subtotal = Σ qty·price`, `discount = dp/100·subtotal`,
`tax = tp/100·max(subtotal − discount, 0)` and
`grand_total = max(subtotal − discount, 0) + tax`, with all intermediate
arithmetic exact and rounding applied only to the four reported figures;
the grand total is never negative (even for `discount_percent > 100`), and
the spec's two worked examples hold: `[{qty:2, price:50}]` with 10%
discount and 5% tax gives subtotal 100, discount 10, tax 4.50, total 94.50,
and `discount_percent = 150` on subtotal 100 gives total 0. -/
theorem calcTotals_spec (items : List BudgetItem) (dp tp : ℚ)
    (hdp : 0 ≤ dp) (htp : 0 ≤ tp) :
    calcTotals items dp tp =
      { subtotal := round2 (subtotalOf items)
        discount := round2 (dp / 100 * subtotalOf items)
        tax := round2 (tp / 100 * max (subtotalOf items - dp / 100 * subtotalOf items) 0)
        total := round2 (max (subtotalOf items - dp / 100 * subtotalOf items) 0
                  + tp / 100 * max (subtotalOf items - dp / 100 * subtotalOf items) 0) }
    ∧ 0 ≤ (calcTotals items dp tp).total
    ∧ calcTotals [⟨[], 2, 50⟩] 10 5 = ⟨100, 10, 9/2, 189/2⟩
    ∧ calcTotals [⟨[], 1, 100⟩] 150 5 = ⟨100, 150, 0, 0⟩ := by
  refine ⟨calcTotals_eq items dp tp, ?_, ?_, ?_⟩
  · have hmax : 0 ≤ max (subtotalOf items - dp / 100 * subtotalOf items) 0 :=
      le_max_right _ _
    have htax : 0 ≤ tp / 100 * max (subtotalOf items - dp / 100 * subtotalOf items) 0 :=
      mul_nonneg (by positivity) hmax
    rw [calcTotals_eq]
    exact round2_nonneg (by linarith)
  · rw [calcTotals_eq]
    have hs : subtotalOf [⟨[], 2, 50⟩] = 100 := by
      norm_num [subtotalOf]
    rw [hs]
    have hmax : max ((100 : ℚ) - 10 / 100 * 100) 0 = 90 := by
      rw [max_eq_left (by norm_num)]; norm_num
    rw [hmax]
    have e1 : round2 (100 : ℚ) = 100 := round2_eq_self 10000 (by norm_num)
    have e2 : round2 ((10 : ℚ) / 100 * 100) = 10 := by
      rw [show ((10 : ℚ) / 100 * 100) = 10 by norm_num]
      exact round2_eq_self 1000 (by norm_num)
    have e3 : round2 ((5 : ℚ) / 100 * 90) = 9/2 := by
      rw [show ((5 : ℚ) / 100 * 90) = 9/2 by norm_num]
      exact round2_eq_self 450 (by norm_num)
    have e4 : round2 ((90 : ℚ) + 5 / 100 * 90) = 189/2 := by
      rw [show ((90 : ℚ) + 5 / 100 * 90) = 189/2 by norm_num]
      exact round2_eq_self 9450 (by norm_num)
    simp only [Totals.mk.injEq]
    exact ⟨e1, e2, e3, e4⟩
  · rw [calcTotals_eq]
    have hs : subtotalOf [⟨[], 1, 100⟩] = 100 := by
      norm_num [subtotalOf]
    rw [hs]
    have hmax : max ((100 : ℚ) - 150 / 100 * 100) 0 = 0 := by
      rw [max_eq_right (by norm_num)]
    rw [hmax]
    have e1 : round2 (100 : ℚ) = 100 := round2_eq_self 10000 (by norm_num)
    have e2 : round2 ((150 : ℚ) / 100 * 100) = 150 := by
      rw [show ((150 : ℚ) / 100 * 100) = 150 by norm_num]
      exact round2_eq_self 15000 (by norm_num)
    have e3 : round2 ((5 : ℚ) / 100 * 0) = 0 := by
      rw [show ((5 : ℚ) / 100 * 0) = 0 by norm_num]
      exact round2_eq_self 0 (by norm_num)
    have e4 : round2 ((0 : ℚ) + 5 / 100 * 0) = 0 := by
      rw [show ((0 : ℚ) + 5 / 100 * 0) = 0 by norm_num]
      exact round2_eq_self 0 (by norm_num)
    simp only [Totals.mk.injEq]
    exact ⟨e1, e2, e3, e4⟩

/-- Witness for C1: concrete instantiation (the spec's worked example),
with the hypotheses `0 ≤ 10` and `0 ≤ 5` discharged concretely. -/
theorem calcTotals_spec_witness :
    (0 : ℚ) ≤ 10 ∧ (0 : ℚ) ≤ 5 ∧
      calcTotals [⟨[], 2, 50⟩] 10 5 = ⟨100, 10, 9/2, 189/2⟩ :=
  ⟨by norm_num, by norm_num,
    (calcTotals_spec [⟨[], 2, 50⟩] 10 5 (by norm_num) (by norm_num)).2.2.1⟩

/-! ## Currency formatting (`_format_currency`) -/

/-- Decimal digits of a natural number, least significant first (`0`
yields `[0]`, matching the one-digit integer part Python prints). -/
def natDigitsLSD (n : ℕ) : List ℕ :=
  if h : n < 10 then [n] else n % 10 :: natDigitsLSD (n / 10)
decreasing_by exact Nat.div_lt_self (by omega) (by omega)

/-- Insert a separator codepoint every three characters, counting from the
front of a least-significant-first digit-character list (i.e. every three
digits from the right of the printed number, as `{:,}` does). -/
def group3 (sep : ℕ) (ds : List ℕ) : List ℕ :=
  if h : ds.length ≤ 3 then ds else ds.take 3 ++ sep :: group3 sep (ds.drop 3)
termination_by ds.length
decreasing_by simp only [List.length_drop]; omega

/-- The integer part of the number as printed: digit characters, most
significant first, with `sep` inserted every three digits from the right. -/
def groupedIntChars (sep : ℕ) (n : ℕ) : Text :=
  (group3 sep ((natDigitsLSD n).map (fun d => 48 + d))).reverse

/-- Exactly two fractional digit characters (the argument is a cents
remainder `< 100`). -/
def twoDigitChars (k : ℕ) : Text := [48 + k / 10, 48 + k % 10]

/-- The value rounded to a whole number of cents (CPython formats `.2f`
with round-half-to-even). -/
def centsOf (v : ℚ) : ℕ := (roundHalfEven (|v| * 100) ).toNat

/-- Python `f"{value:,.2f}"`: optional minus sign, comma-grouped integer
part, a period, and two fractional digits. -/
def formatUSStyle (v : ℚ) : Text :=
  (if v < 0 then [45] else [])
    ++ groupedIntChars 44 (centsOf v / 100) ++ [46] ++ twoDigitChars (centsOf v % 100)

/-- Python `str.replace` restricted to single-character patterns, which is
how `_format_currency` uses it. -/
def pyReplace (a b : ℕ) (s : Text) : Text := s.map (fun c => if c = a then b else c)

/-- `_format_currency` from `services/budget_pdf.py`: format in the
default (US) locale style, then swap the separators via the
`X`-intermediary replace chain, and prepend the currency symbol. -/
def formatCurrency (value : ℚ) (currency : Text) : Text :=
  currency ++ [32] ++ pyReplace 88 46 (pyReplace 46 44 (pyReplace 44 88 (formatUSStyle value)))

/-- Modelled from the spec's words (for comparison with the source's
`_format_currency`): the amount printed directly with period as the
thousands separator and comma as the decimal separator, 2 decimal places
always. -/
def formatPtBRSpec (v : ℚ) : Text :=
  (if v < 0 then [45] else [])
    ++ groupedIntChars 46 (centsOf v / 100) ++ [44] ++ twoDigitChars (centsOf v % 100)

/-- The composite of the three single-character replaces: swap `,` (44)
and `.` (46); a literal `X` (88) would end as `.` but never occurs in the
formatted number. -/
def sepSwap (c : ℕ) : ℕ :=
  if c = 44 then 46 else if c = 46 then 44 else if c = 88 then 46 else c

lemma pyReplace_chain (s : Text) :
    pyReplace 88 46 (pyReplace 46 44 (pyReplace 44 88 s)) = s.map sepSwap := by
  simp only [pyReplace, List.map_map]
  apply List.map_congr_left
  intro c _
  simp only [Function.comp_apply]
  by_cases h1 : c = 44
  · subst h1; simp [sepSwap]
  · by_cases h2 : c = 46
    · subst h2; simp [sepSwap]
    · by_cases h3 : c = 88
      · subst h3; simp [sepSwap]
      · simp [sepSwap, h1, h2, h3]

lemma natDigitsLSD_lt (n : ℕ) : ∀ d ∈ natDigitsLSD n, d < 10 := by
  induction n using Nat.strong_induction_on with
  | _ n ih =>
      rw [natDigitsLSD]
      split_ifs with h
      · intro d hd
        simp only [List.mem_singleton] at hd
        omega
      · intro d hd
        rcases List.mem_cons.mp hd with h1 | h2
        · subst h1; exact Nat.mod_lt _ (by omega)
        · exact ih (n / 10) (Nat.div_lt_self (by omega) (by omega)) d h2

lemma map_group3 (f : ℕ → ℕ) (a : ℕ) (ds : List ℕ) :
    (group3 a ds).map f = group3 (f a) (ds.map f) := by
  generalize hN : ds.length = N
  induction N using Nat.strong_induction_on generalizing ds with
  | _ N ih =>
      subst hN
      by_cases h : ds.length ≤ 3
      · conv_lhs => rw [group3]
        conv_rhs => rw [group3]
        rw [dif_pos h, dif_pos (show (List.map f ds).length ≤ 3 by simpa using h)]
      · conv_lhs => rw [group3]
        conv_rhs => rw [group3]
        rw [dif_neg h, dif_neg (show ¬(List.map f ds).length ≤ 3 by simpa using h)]
        simp only [List.map_append, List.map_cons, List.map_take, List.map_drop]
        have hrec := ih (ds.drop 3).length
          (by simp only [List.length_drop]; omega) (ds.drop 3) rfl
        simp only [List.map_drop] at hrec
        rw [hrec]

lemma sepSwap_digit {d : ℕ} (hd : d < 10) : sepSwap (48 + d) = 48 + d := by
  unfold sepSwap
  split_ifs with h1 h2 h3 <;> omega

lemma map_sepSwap_groupedIntChars (n : ℕ) :
    (groupedIntChars 44 n).map sepSwap = groupedIntChars 46 n := by
  unfold groupedIntChars
  rw [List.map_reverse, map_group3]
  have hdigits : ((natDigitsLSD n).map (fun d => 48 + d)).map sepSwap
      = (natDigitsLSD n).map (fun d => 48 + d) := by
    rw [List.map_map]
    apply List.map_congr_left
    intro d hd
    exact sepSwap_digit (natDigitsLSD_lt n d hd)
  rw [hdigits]
  norm_num [sepSwap]

/-- C2: `_format_currency` returns `<currency-symbol> <value>` where the
value is printed with exactly two decimal places, period as the thousands
separator and comma as the decimal separator (i.e. it agrees with the
spec-side pt-BR formatter for every value and currency string), and the
worked example: `1234.5` with currency `"R$"` formats as `"R$ 1.234,50"`. -/
theorem formatCurrency_spec (v : ℚ) (currency : Text) :
    formatCurrency v currency = currency ++ [32] ++ formatPtBRSpec v
    ∧ formatCurrency (2469/2) (codes "R$") = codes "R$ 1.234,50" := by
  have hsign : ∀ w : ℚ, ((if w < 0 then [45] else []) : Text).map sepSwap
      = (if w < 0 then [45] else []) := by
    intro w; split_ifs <;> simp [sepSwap]
  have hdot : (([46] : Text)).map sepSwap = [44] := by simp [sepSwap]
  have htwo : ∀ k : ℕ, (twoDigitChars (k % 100)).map sepSwap = twoDigitChars (k % 100) := by
    intro k
    have h1 : k % 100 / 10 < 10 := by omega
    have h2 : k % 100 % 10 < 10 := by omega
    unfold twoDigitChars
    simp only [List.map_cons, List.map_nil]
    rw [sepSwap_digit h1, sepSwap_digit h2]
  constructor
  · unfold formatCurrency formatPtBRSpec
    rw [pyReplace_chain]
    unfold formatUSStyle
    simp only [List.map_append]
    rw [hsign, hdot, htwo, map_sepSwap_groupedIntChars]
  · have hcents : centsOf (2469/2) = 123450 := by
      unfold centsOf
      rw [show |(2469/2 : ℚ)| * 100 = ((123450 : ℤ) : ℚ) by rw [abs_of_nonneg] <;> norm_num]
      rw [roundHalfEven_intCast]
      rfl
    unfold formatCurrency
    rw [pyReplace_chain]
    unfold formatUSStyle
    rw [hcents]
    rw [if_neg (by norm_num)]
    unfold groupedIntChars twoDigitChars
    norm_num
    rw [show natDigitsLSD 1234 = [4, 3, 2, 1] by
      rw [natDigitsLSD]; norm_num
      rw [natDigitsLSD]; norm_num
      rw [natDigitsLSD]; norm_num
      rw [natDigitsLSD]; norm_num]
    rw [show (List.map (fun d => 48 + d) [4, 3, 2, 1] : List ℕ) = [52, 51, 50, 49] by decide]
    rw [show group3 44 [52, 51, 50, 49] = [52, 51, 50, 44, 49] by
      rw [group3]; norm_num
      rw [group3]; norm_num]
    simp only [List.reverse_cons, List.reverse_nil, List.nil_append, List.map_cons,
      List.map_nil, List.reverse_append]
    decide

/-! ## Image variant pipeline (`app.py`) -/

/-- The PIL color modes relevant to the pipeline's checks. -/
inductive PILMode
  | RGBA
  | LA
  | P
  | RGB
  | L
deriving DecidableEq

/-- An in-memory PIL image: color mode, presence of a `transparency` key in
`img.info`, and pixel dimensions. -/
structure PILImage where
  mode : PILMode
  transparencyInfo : Bool
  width : ℕ
  height : ℕ
deriving DecidableEq

/-- `has_alpha` as computed inside `_choose_format_by_alpha`:
`img.mode in ("RGBA", "LA") or ("transparency" in img.info)`. -/
def hasAlpha (img : PILImage) : Bool :=
  if img.mode = PILMode.RGBA ∨ img.mode = PILMode.LA then true else img.transparencyInfo

/-- The output formats the pipeline can choose. -/
inductive OutFormat
  | WEBP
  | PNG
  | JPEG
deriving DecidableEq

/-- `fmt.lower()` on the canonical format token. -/
def OutFormat.lower : OutFormat → String
  | .WEBP => "webp"
  | .PNG => "png"
  | .JPEG => "jpeg"

/-- The keyword arguments passed to `img.save`, as a record (absent keys are
`none`/`false`). -/
structure SaveParams where
  quality : Option ℕ
  method : Option ℕ
  optimize : Bool
  progressive : Bool
deriving DecidableEq

def webpParams : SaveParams := ⟨some 82, some 5, false, false⟩

def jpegParams : SaveParams := ⟨some 85, none, true, true⟩

def noParams : SaveParams := ⟨none, none, false, false⟩

/-- `_choose_format_by_alpha` from `app.py`.  (In the source the
`prefer_webp` branch ends in `("WEBP", params) if not has_alpha else
("WEBP", params)`, whose two arms are identical, so it is modelled as the
single value.) -/
def chooseFormatByAlpha (img : PILImage) (prefer_webp : Bool := true) :
    OutFormat × SaveParams :=
  if prefer_webp then (OutFormat.WEBP, webpParams)
  else if hasAlpha img then (OutFormat.PNG, noParams)
  else (OutFormat.JPEG, jpegParams)

/-- `img.convert("RGB")`: a 3-channel RGB image with the same dimensions. -/
def convertRGB (img : PILImage) : PILImage := { img with mode := PILMode.RGB }

/-- The bytes produced by `img.save(...)`, abstracted as the mode, format
and parameters that were encoded. -/
structure EncodedImage where
  mode : PILMode
  fmt : OutFormat
  params : SaveParams
deriving DecidableEq

/-- PIL's encoder: saving an alpha-bearing or palette mode (`RGBA`, `LA`,
`P`) as JPEG raises (`cannot write mode ... as JPEG`); everything else
succeeds. -/
def encodeImage (img : PILImage) (fmt : OutFormat) (params : SaveParams) :
    Except String EncodedImage :=
  match fmt with
  | .JPEG =>
      if img.mode = PILMode.RGBA ∨ img.mode = PILMode.LA ∨ img.mode = PILMode.P then
        Except.error "cannot write mode as JPEG"
      else Except.ok ⟨img.mode, fmt, params⟩
  | _ => Except.ok ⟨img.mode, fmt, params⟩

/-- The mode-flattening guard at the top of `_save_image_to_bytes`:
`if fmt.upper() == "JPEG" and img.mode in ("RGBA", "LA", "P"): img =
img.convert("RGB")` (the format argument is already the canonical
upper-case token, so `fmt.upper()` is the identity here). -/
def savePreprocess (img : PILImage) (fmt : OutFormat) : PILImage :=
  if fmt = OutFormat.JPEG ∧
      (img.mode = PILMode.RGBA ∨ img.mode = PILMode.LA ∨ img.mode = PILMode.P) then
    convertRGB img
  else img

/-- `_save_image_to_bytes` from `app.py`. -/
def saveImageToBytes (img : PILImage) (fmt : OutFormat) (params : SaveParams) :
    Except String EncodedImage :=
  encodeImage (savePreprocess img fmt) fmt params

/-- C3: with the WEBP-preferred policy (the default `prefer_webp=True`)
`_choose_format_by_alpha` always returns WEBP, with or without alpha; with
the policy disabled it returns PNG with no extra parameters exactly when
the image has alpha or palette transparency, and otherwise JPEG with
quality 85, optimize and progressive. -/
theorem chooseFormatByAlpha_spec (img : PILImage) :
    (chooseFormatByAlpha img true).1 = OutFormat.WEBP
    ∧ (hasAlpha img = true →
        chooseFormatByAlpha img false = (OutFormat.PNG, ⟨none, none, false, false⟩))
    ∧ (hasAlpha img = false →
        chooseFormatByAlpha img false
          = (OutFormat.JPEG, ⟨some 85, none, true, true⟩)) := by
  refine ⟨rfl, ?_, ?_⟩
  · intro halpha
    simp [chooseFormatByAlpha, halpha, noParams]
  · intro halpha
    simp [chooseFormatByAlpha, halpha, jpegParams]

/-- Witness for C3: an RGBA image, with the two policy hypotheses
discharged concretely. -/
theorem chooseFormatByAlpha_spec_witness :
    hasAlpha ⟨PILMode.RGBA, false, 10, 10⟩ = true
    ∧ chooseFormatByAlpha ⟨PILMode.RGBA, false, 10, 10⟩ false
        = (OutFormat.PNG, ⟨none, none, false, false⟩) :=
  ⟨by decide, (chooseFormatByAlpha_spec ⟨PILMode.RGBA, false, 10, 10⟩).2.1 (by decide)⟩

/-- C7: the encoder path of `_save_image_to_bytes` flattens to RGB exactly
when the target format is JPEG and the mode is `RGBA`, `LA` or `P`; under
this guard the image actually passed to the JPEG encoder never has one of
those modes, so the JPEG alpha-mode failure branch is unreachable and
every save succeeds. -/
theorem saveImageToBytes_jpeg_safe (img : PILImage) (fmt : OutFormat) (params : SaveParams) :
    ((fmt = OutFormat.JPEG ∧
        (img.mode = PILMode.RGBA ∨ img.mode = PILMode.LA ∨ img.mode = PILMode.P)) →
      savePreprocess img fmt = convertRGB img)
    ∧ (¬(fmt = OutFormat.JPEG ∧
        (img.mode = PILMode.RGBA ∨ img.mode = PILMode.LA ∨ img.mode = PILMode.P)) →
      savePreprocess img fmt = img)
    ∧ ∃ out, saveImageToBytes img fmt params = Except.ok out
        ∧ (fmt = OutFormat.JPEG →
            out.mode ≠ PILMode.RGBA ∧ out.mode ≠ PILMode.LA ∧ out.mode ≠ PILMode.P) := by
  refine ⟨fun hc => by simp [savePreprocess, hc], fun hc => by simp [savePreprocess, hc], ?_⟩
  unfold saveImageToBytes savePreprocess encodeImage
  by_cases hc : fmt = OutFormat.JPEG ∧
      (img.mode = PILMode.RGBA ∨ img.mode = PILMode.LA ∨ img.mode = PILMode.P)
  · rw [if_pos hc]
    rcases hc with ⟨hfmt, _⟩
    subst hfmt
    exact ⟨⟨PILMode.RGB, OutFormat.JPEG, params⟩, by simp [convertRGB], by simp [convertRGB]⟩
  · rw [if_neg hc]
    cases hfmt : fmt with
    | JPEG =>
        subst hfmt
        have hmode : ¬(img.mode = PILMode.RGBA ∨ img.mode = PILMode.LA ∨ img.mode = PILMode.P) := by
          intro hm; exact hc ⟨rfl, hm⟩
        refine ⟨⟨img.mode, OutFormat.JPEG, params⟩, by simp [hmode], ?_⟩
        intro _
        push_neg at hmode
        exact ⟨hmode.1, hmode.2.1, hmode.2.2⟩
    | WEBP => exact ⟨⟨img.mode, OutFormat.WEBP, params⟩, rfl, by intro hk; cases hk⟩
    | PNG => exact ⟨⟨img.mode, OutFormat.PNG, params⟩, rfl, by intro hk; cases hk⟩

/-- Witness for C7: an RGBA image saved as JPEG, with the guard hypothesis
discharged concretely. -/
theorem saveImageToBytes_jpeg_safe_witness :
    (OutFormat.JPEG = OutFormat.JPEG ∧
      ((⟨PILMode.RGBA, false, 10, 10⟩ : PILImage).mode = PILMode.RGBA
        ∨ (⟨PILMode.RGBA, false, 10, 10⟩ : PILImage).mode = PILMode.LA
        ∨ (⟨PILMode.RGBA, false, 10, 10⟩ : PILImage).mode = PILMode.P))
    ∧ savePreprocess ⟨PILMode.RGBA, false, 10, 10⟩ OutFormat.JPEG
        = convertRGB ⟨PILMode.RGBA, false, 10, 10⟩
    ∧ ∃ out, saveImageToBytes ⟨PILMode.RGBA, false, 10, 10⟩ OutFormat.JPEG jpegParams
        = Except.ok out :=
  ⟨⟨rfl, Or.inl rfl⟩,
    (saveImageToBytes_jpeg_safe ⟨PILMode.RGBA, false, 10, 10⟩ OutFormat.JPEG jpegParams).1
      ⟨rfl, Or.inl rfl⟩,
    match (saveImageToBytes_jpeg_safe ⟨PILMode.RGBA, false, 10, 10⟩ OutFormat.JPEG jpegParams).2.2 with
    | ⟨out, hout, _⟩ => ⟨out, hout⟩⟩

/-! ## Contain resize (`_fit_contain`, via PIL `Image.thumbnail`) -/

/-- The `round_aspect` adjustment of the width in PIL's `thumbnail` when
the box is `(t, t)` and `aspect = w/h ≤ 1`: pick between the floor and the
ceiling of `t * aspect` whichever minimizes `abs(aspect - n / t)` (the
floor on a tie, as Python's `min` keeps the first argument), then clamp to
at least 1. -/
def roundAspectX (a : ℚ) (t : ℕ) : ℕ :=
  max 1
    (if |a - (⌊(t : ℚ) * a⌋ : ℚ) / t| ≤ |a - (⌈(t : ℚ) * a⌉ : ℚ) / t|
      then ⌊(t : ℚ) * a⌋ else ⌈(t : ℚ) * a⌉).toNat

/-- The `round_aspect` adjustment of the height in PIL's `thumbnail` when
the box is `(t, t)` and `aspect = w/h > 1`: pick between the floor and the
ceiling of `t / aspect` whichever minimizes the key
`0 if n == 0 else abs(aspect - t / n)`, floor first on ties, clamped to at
least 1. -/
def roundAspectY (a : ℚ) (t : ℕ) : ℕ :=
  max 1
    (if (if ⌊(t : ℚ) / a⌋ = 0 then 0 else |a - (t : ℚ) / (⌊(t : ℚ) / a⌋ : ℚ)|)
        ≤ (if ⌈(t : ℚ) / a⌉ = 0 then 0 else |a - (t : ℚ) / (⌈(t : ℚ) / a⌉ : ℚ)|)
      then ⌊(t : ℚ) / a⌋ else ⌈(t : ℚ) / a⌉).toNat

/-- `_fit_contain` from `app.py` at the level of dimensions:
`img.thumbnail((t, t), LANCZOS)` returns the image unchanged when both
dimensions already fit in the box, and otherwise scales the longest side
to `t` with the shorter side aspect-rounded (PIL `Image.thumbnail`'s
`preserve_aspect_ratio`). -/
def fitContain (w h t : ℕ) : ℕ × ℕ :=
  if w ≤ t ∧ h ≤ t then (w, h)
  else if (w : ℚ) / h ≤ (t : ℚ) / t then (roundAspectX ((w : ℚ) / h) t, t)
  else (t, roundAspectY ((w : ℚ) / h) t)

lemma pickFloorCeil_bound (ν : ℚ) (t : ℕ) (ht : 1 ≤ t) (hν0 : 0 < ν) (hνt : ν ≤ t)
    (n : ℤ) (hn : n = ⌊ν⌋ ∨ n = ⌈ν⌉) :
    max 1 n.toNat ≤ t ∧ |(((max 1 n.toNat : ℕ)) : ℚ) - ν| ≤ 1 := by
  have hfc : ⌊ν⌋ ≤ ⌈ν⌉ := Int.floor_le_ceil ν
  have hceil : ⌈ν⌉ ≤ (t : ℤ) := by
    rw [Int.ceil_le]
    exact_mod_cast hνt
  have hnt : n ≤ (t : ℤ) := by rcases hn with h | h <;> subst h <;> omega
  have hbound : max 1 n.toNat ≤ t := by
    rw [Nat.max_le]
    exact ⟨ht, Int.toNat_le.mpr hnt⟩
  refine ⟨hbound, ?_⟩
  have hflo : (⌊ν⌋ : ℚ) ≤ ν := Int.floor_le ν
  have hflo2 : ν - 1 < (⌊ν⌋ : ℚ) := Int.sub_one_lt_floor ν
  have hcei : ν ≤ (⌈ν⌉ : ℚ) := Int.le_ceil ν
  have hcei2 : (⌈ν⌉ : ℚ) ≤ ν + 1 := by
    have := Int.ceil_le_floor_add_one ν
    have hc : ((⌈ν⌉ : ℤ) : ℚ) ≤ ((⌊ν⌋ + 1 : ℤ) : ℚ) := by exact_mod_cast this
    push_cast at hc
    linarith
  by_cases hpos : 1 ≤ n
  · have h1 : max 1 n.toNat = n.toNat := by omega
    have h2 : ((n.toNat : ℕ) : ℚ) = (n : ℚ) := by
      have : ((n.toNat : ℤ) : ℚ) = (n : ℚ) := by
        rw [Int.toNat_of_nonneg (by omega)]
      exact_mod_cast this
    rw [h1, h2, abs_le]
    rcases hn with h | h <;> subst h
    · constructor <;> [push_cast; push_cast] <;> linarith
    · constructor <;> [push_cast; push_cast] <;> linarith
  · have hn0 : n ≤ 0 := by omega
    have h1 : max 1 n.toNat = 1 := by omega
    have hν1 : ν < 1 := by
      rcases hn with h | h
      · subst h
        have : (⌊ν⌋ : ℚ) ≤ 0 := by exact_mod_cast hn0
        linarith
      · subst h
        have : ν ≤ 0 := by
          have hc : ν ≤ ((0 : ℤ) : ℚ) := Int.ceil_le.mp hn0
          simpa using hc
        linarith
    rw [h1, abs_le]
    constructor <;> push_cast <;> linarith

lemma fitContain_resize_x (w h t : ℕ) (hw : 0 < w) (hh : 0 < h) (ht : 0 < t)
    (hgt : ¬(w ≤ t ∧ h ≤ t)) (hwh : w ≤ h) :
    fitContain w h t = (roundAspectX ((w : ℚ) / h) t, t)
    ∧ roundAspectX ((w : ℚ) / h) t ≤ t
    ∧ |(roundAspectX ((w : ℚ) / h) t : ℚ) - (t : ℚ) * ((w : ℚ) / h)| ≤ 1 := by
  have hhq : (0 : ℚ) < (h : ℚ) := by exact_mod_cast hh
  have htq : (0 : ℚ) < (t : ℚ) := by exact_mod_cast ht
  have ha1 : (w : ℚ) / h ≤ 1 := by
    rw [div_le_one hhq]
    exact_mod_cast hwh
  have htt : (t : ℚ) / t = 1 := div_self (ne_of_gt htq)
  have hbranch : (w : ℚ) / h ≤ (t : ℚ) / t := by rw [htt]; exact ha1
  have hfit : fitContain w h t = (roundAspectX ((w : ℚ) / h) t, t) := by
    unfold fitContain
    rw [if_neg hgt, if_pos hbranch]
  have hν0 : (0 : ℚ) < (t : ℚ) * ((w : ℚ) / h) := by positivity
  have hνt : (t : ℚ) * ((w : ℚ) / h) ≤ t := by
    calc (t : ℚ) * ((w : ℚ) / h) ≤ (t : ℚ) * 1 := by
          apply mul_le_mul_of_nonneg_left ha1 (le_of_lt htq)
      _ = t := mul_one _
  have hpick := pickFloorCeil_bound ((t : ℚ) * ((w : ℚ) / h)) t ht hν0 hνt
    (if |(w : ℚ) / h - (⌊(t : ℚ) * ((w : ℚ) / h)⌋ : ℚ) / t|
        ≤ |(w : ℚ) / h - (⌈(t : ℚ) * ((w : ℚ) / h)⌉ : ℚ) / t|
      then ⌊(t : ℚ) * ((w : ℚ) / h)⌋ else ⌈(t : ℚ) * ((w : ℚ) / h)⌉)
    (by split_ifs <;> [exact Or.inl rfl; exact Or.inr rfl])
  exact ⟨hfit, hpick.1, hpick.2⟩

lemma fitContain_resize_y (w h t : ℕ) (hw : 0 < w) (hh : 0 < h) (ht : 0 < t)
    (hgt : ¬(w ≤ t ∧ h ≤ t)) (hwh : h < w) :
    fitContain w h t = (t, roundAspectY ((w : ℚ) / h) t)
    ∧ roundAspectY ((w : ℚ) / h) t ≤ t
    ∧ |(roundAspectY ((w : ℚ) / h) t : ℚ) - (t : ℚ) / ((w : ℚ) / h)| ≤ 1 := by
  have hhq : (0 : ℚ) < (h : ℚ) := by exact_mod_cast hh
  have htq : (0 : ℚ) < (t : ℚ) := by exact_mod_cast ht
  have ha1 : 1 < (w : ℚ) / h := by
    rw [lt_div_iff₀ hhq, one_mul]
    exact_mod_cast hwh
  have htt : (t : ℚ) / t = 1 := div_self (ne_of_gt htq)
  have hbranch : ¬((w : ℚ) / h ≤ (t : ℚ) / t) := by rw [htt]; linarith
  have hfit : fitContain w h t = (t, roundAspectY ((w : ℚ) / h) t) := by
    unfold fitContain
    rw [if_neg hgt, if_neg hbranch]
  have hν0 : (0 : ℚ) < (t : ℚ) / ((w : ℚ) / h) := by positivity
  have hνt : (t : ℚ) / ((w : ℚ) / h) ≤ t := le_of_lt (div_lt_self htq ha1)
  have hpick := pickFloorCeil_bound ((t : ℚ) / ((w : ℚ) / h)) t ht hν0 hνt
    (if (if ⌊(t : ℚ) / ((w : ℚ) / h)⌋ = 0 then 0
          else |(w : ℚ) / h - (t : ℚ) / (⌊(t : ℚ) / ((w : ℚ) / h)⌋ : ℚ)|)
        ≤ (if ⌈(t : ℚ) / ((w : ℚ) / h)⌉ = 0 then 0
          else |(w : ℚ) / h - (t : ℚ) / (⌈(t : ℚ) / ((w : ℚ) / h)⌉ : ℚ)|)
      then ⌊(t : ℚ) / ((w : ℚ) / h)⌋ else ⌈(t : ℚ) / ((w : ℚ) / h)⌉)
    (by split_ifs <;> first | exact Or.inl rfl | exact Or.inr rfl)
  exact ⟨hfit, hpick.1, hpick.2⟩

/-- C5: `_fit_contain` never upscales (if both dimensions already fit the
target the image is returned with its original dimensions), caps the
longest side at exactly the target when it does resize, and in the resize
branch the rounded side is within one pixel of the exact aspect-preserving
value `t·(w/h)` (resp. `t/(w/h)`). -/
theorem fitContain_spec (w h t : ℕ) (hw : 0 < w) (hh : 0 < h) (ht : 0 < t) :
    (max w h ≤ t → fitContain w h t = (w, h))
    ∧ (t < max w h → max (fitContain w h t).1 (fitContain w h t).2 = t)
    ∧ (t < max w h → w ≤ h →
        (fitContain w h t).2 = t
        ∧ |((fitContain w h t).1 : ℚ) - (t : ℚ) * ((w : ℚ) / h)| ≤ 1)
    ∧ (t < max w h → h < w →
        (fitContain w h t).1 = t
        ∧ |((fitContain w h t).2 : ℚ) - (t : ℚ) / ((w : ℚ) / h)| ≤ 1) := by
  refine ⟨?_, ?_, ?_, ?_⟩
  · intro hle
    have hc : w ≤ t ∧ h ≤ t := by
      constructor <;> [exact le_trans (le_max_left w h) hle; exact le_trans (le_max_right w h) hle]
    unfold fitContain
    rw [if_pos hc]
  · intro hgt
    have hc : ¬(w ≤ t ∧ h ≤ t) := by
      intro hboth
      have : max w h ≤ t := max_le hboth.1 hboth.2
      omega
    by_cases hwh : w ≤ h
    · obtain ⟨hfit, hle, _⟩ := fitContain_resize_x w h t hw hh ht hc hwh
      rw [hfit]
      simpa using Nat.max_eq_right hle
    · obtain ⟨hfit, hle, _⟩ := fitContain_resize_y w h t hw hh ht hc (by omega)
      rw [hfit]
      simpa using Nat.max_eq_left hle
  · intro hgt hwh
    have hc : ¬(w ≤ t ∧ h ≤ t) := by
      intro hboth
      have : max w h ≤ t := max_le hboth.1 hboth.2
      omega
    obtain ⟨hfit, _, habs⟩ := fitContain_resize_x w h t hw hh ht hc hwh
    rw [hfit]
    exact ⟨rfl, habs⟩
  · intro hgt hwh
    have hc : ¬(w ≤ t ∧ h ≤ t) := by
      intro hboth
      have : max w h ≤ t := max_le hboth.1 hboth.2
      omega
    obtain ⟨hfit, _, habs⟩ := fitContain_resize_y w h t hw hh ht hc hwh
    rw [hfit]
    exact ⟨rfl, habs⟩

/-- Witness for C5: a 200×100 image with target 256 fits already and is
returned unchanged; hypotheses discharged concretely. -/
theorem fitContain_spec_witness :
    0 < 200 ∧ 0 < 100 ∧ 0 < 256 ∧ max 200 100 ≤ 256 ∧ fitContain 200 100 256 = (200, 100) :=
  ⟨by decide, by decide, by decide, by decide,
    (fitContain_spec 200 100 256 (by decide) (by decide) (by decide)).1 (by decide)⟩

/-! ## Request pipeline (`process_image`) -/

/-- The EXIF map `{str(k): str(v) for k, v in tags.items()}`. -/
abbrev ExifMap := List (String × String)

/-- The `metadata.json` document: original dimensions, declared content
type, filename and the EXIF map. -/
structure MetaJson where
  width : ℕ
  height : ℕ
  content_type : String
  filename : String
  exif : ExifMap
deriving DecidableEq

/-- The data stored under one ZIP entry name. -/
inductive ZipData
  | image : EncodedImage → ZipData
  | json : MetaJson → ZipData
deriving DecidableEq

/-- Python dict insertion (`results[name] = data`): an existing key keeps
its position and gets the new value, a new key is appended. -/
def dictInsert {α : Type} (k : String) (v : α) :
    List (String × α) → List (String × α)
  | [] => [(k, v)]
  | (k0, v0) :: rest =>
      if k0 = k then (k0, v) :: rest else (k0, v0) :: dictInsert k v rest

/-- `img.copy()` + `img.thumbnail((maxSide, maxSide))` (`_fit_contain` on
the image object): the mode and info are preserved, the dimensions are the
contain-resized ones. -/
def fitContainImg (img : PILImage) (maxSide : ℕ) : PILImage :=
  { img with
    width := (fitContain img.width img.height maxSide).1
    height := (fitContain img.width img.height maxSide).2 }

/-- The variant-generation and packaging section of `process_image`
(after validation and decode succeeded): build the three encoded variants
and the metadata document, inserting them into the `results` dict in
source order; the ZIP is written with exactly one entry per dict item in
that order. -/
def processImageCore (img : PILImage) (exif : ExifMap) (ct fn : String) :
    Except String (List (String × ZipData)) := do
  let thumb := fitContainImg img 256
  let tsel := chooseFormatByAlpha thumb true
  let tbytes ← saveImageToBytes thumb tsel.1 tsel.2
  let medium := fitContainImg img 1024
  let msel := chooseFormatByAlpha medium true
  let mbytes ← saveImageToBytes medium msel.1 msel.2
  let osel := chooseFormatByAlpha img true
  let obytes ← saveImageToBytes img osel.1 osel.2
  let results := dictInsert ("thumb_256." ++ tsel.1.lower) (ZipData.image tbytes) []
  let results := dictInsert ("medium_1024." ++ msel.1.lower) (ZipData.image mbytes) results
  let results := dictInsert ("optimized." ++ osel.1.lower) (ZipData.image obytes) results
  let results := dictInsert "metadata.json"
    (ZipData.json ⟨img.width, img.height, ct, fn, exif⟩) results
  pure results

lemma processImageCore_eval (img : PILImage) (exif : ExifMap) (ct fn : String) :
    processImageCore img exif ct fn = Except.ok
      [("thumb_256.webp", ZipData.image ⟨img.mode, OutFormat.WEBP, webpParams⟩),
       ("medium_1024.webp", ZipData.image ⟨img.mode, OutFormat.WEBP, webpParams⟩),
       ("optimized.webp", ZipData.image ⟨img.mode, OutFormat.WEBP, webpParams⟩),
       ("metadata.json", ZipData.json ⟨img.width, img.height, ct, fn, exif⟩)] := rfl

/-- `_read_image_and_exif` from `app.py`: the EXIF parse is wrapped in
`try/except Exception` collapsing any parser failure to the empty map
(modelled by matching on an `Except`-valued parser); `Image.open` may
itself fail (corrupt bytes), which propagates to the caller (the `Option`
layer). -/
def readImageAndExif (parse : Text → Except String ExifMap)
    (decode : Text → Option PILImage) (fileBytes : Text) :
    Option (PILImage × ExifMap) :=
  let exifData := match parse fileBytes with
    | Except.ok tags => tags
    | Except.error _ => []
  (decode fileBytes).map (fun img => (img, exifData))

/-- `_apply_exif_orientation` from `app.py`: `ImageOps.exif_transpose`
wrapped in `try/except` falling back to the untransformed image. -/
def applyExifOrientation (transpose : PILImage → Except String PILImage)
    (img : PILImage) : PILImage :=
  match transpose img with
  | Except.ok out => out
  | Except.error _ => img

/-- The successful-decode path of the `process_image` endpoint: read image
and EXIF, normalize orientation, then build the ZIP entries.  `none` means
the decode failed (HTTP 400 in the source). -/
def processImagePipeline (parse : Text → Except String ExifMap)
    (decode : Text → Option PILImage) (transpose : PILImage → Except String PILImage)
    (fileBytes : Text) (ct fn : String) :
    Option (Except String (List (String × ZipData))) :=
  match readImageAndExif parse decode fileBytes with
  | none => none
  | some (img0, exifData) =>
      some (processImageCore (applyExifOrientation transpose img0) exifData ct fn)

/-- C4: on every successful request the ZIP archive holds exactly 4
entries with the fixed names `thumb_256.<ext>`, `medium_1024.<ext>`,
`optimized.<ext>` and `metadata.json`, where each image entry's extension
is the lowercase canonical name of the format chosen for that variant by
`_choose_format_by_alpha`. -/
theorem processImage_zip_entries (img : PILImage) (exif : ExifMap) (ct fn : String) :
    (processImageCore img exif ct fn).map (fun entries => entries.map Prod.fst)
      = Except.ok
          ["thumb_256." ++ (chooseFormatByAlpha (fitContainImg img 256) true).1.lower,
           "medium_1024." ++ (chooseFormatByAlpha (fitContainImg img 1024) true).1.lower,
           "optimized." ++ (chooseFormatByAlpha img true).1.lower,
           "metadata.json"]
    ∧ (processImageCore img exif ct fn).map List.length = Except.ok 4 := by
  rw [processImageCore_eval]
  exact ⟨rfl, rfl⟩

/-- C6: when the uploaded bytes decode, a raising EXIF parser yields the
empty metadata map and a raising orientation transform yields the
untransformed image, and in every such case the pipeline still produces a
complete 4-entry archive. -/
theorem exif_failures_nonfatal (parse : Text → Except String ExifMap)
    (decode : Text → Option PILImage) (transpose : PILImage → Except String PILImage)
    (fileBytes : Text) (ct fn : String) (img0 : PILImage)
    (hdec : decode fileBytes = some img0) :
    (∃ entries, processImagePipeline parse decode transpose fileBytes ct fn
        = some (Except.ok entries) ∧ entries.length = 4)
    ∧ (∀ e, parse fileBytes = Except.error e →
        readImageAndExif parse decode fileBytes = some (img0, []))
    ∧ (∀ e, transpose img0 = Except.error e →
        applyExifOrientation transpose img0 = img0) := by
  refine ⟨?_, ?_, ?_⟩
  · unfold processImagePipeline readImageAndExif
    rw [hdec]
    simp only [Option.map_some']
    rw [processImageCore_eval]
    exact ⟨_, rfl, rfl⟩
  · intro e he
    unfold readImageAndExif
    rw [he, hdec]
    rfl
  · intro e he
    unfold applyExifOrientation
    rw [he]

/-- A decoder that always raises inside `exifread.process_file`. -/
def alwaysFailParse : Text → Except String ExifMap := fun _ => Except.error "parse failure"

/-- An `exif_transpose` that always raises. -/
def alwaysFailTranspose : PILImage → Except String PILImage :=
  fun _ => Except.error "transpose failure"

/-- A fixed decodable image for the witness. -/
def demoImage : PILImage := ⟨PILMode.RGB, false, 800, 600⟩

/-- A decoder for which the demo bytes decode. -/
def demoDecode : Text → Option PILImage := fun _ => some demoImage

/-- Witness for C6: both the EXIF parser and the orientation transform
raise, the bytes decode, and the archive still has its 4 entries with the
empty EXIF map. -/
theorem exif_failures_nonfatal_witness :
    demoDecode [] = some demoImage
    ∧ (∃ entries, processImagePipeline alwaysFailParse demoDecode alwaysFailTranspose
        [] "image/png" "a.png" = some (Except.ok entries) ∧ entries.length = 4)
    ∧ readImageAndExif alwaysFailParse demoDecode [] = some (demoImage, [])
    ∧ applyExifOrientation alwaysFailTranspose demoImage = demoImage := by
  have h := exif_failures_nonfatal alwaysFailParse demoDecode alwaysFailTranspose
    [] "image/png" "a.png" demoImage rfl
  exact ⟨rfl, h.1, h.2.1 "parse failure" rfl, h.2.2 "transpose failure" rfl⟩

/-! ## Text sanitizing and number formatting for the PDF renderer -/

/-- `_safe_text` from `services/budget_pdf.py`: `None` becomes the empty
string, and `text.encode("latin-1", "replace").decode("latin-1")` keeps
codepoints `≤ 255` and replaces every other character by `?` (63), the
substitution character of the `replace` error handler. -/
def safeText (text : Option Text) : Text :=
  match text with
  | none => []
  | some cs => cs.map (fun c => if c ≤ 255 then c else 63)

/-- `_safe_text` applied to a (non-`None`) string. -/
def st (t : Text) : Text := safeText (some t)

/-- Python `a or b` on an optional string: `None` and the empty string are
falsy. -/
def orText (o : Option Text) (d : Text) : Text :=
  match o with
  | none => d
  | some t => if t = [] then d else t

/-- Python `float(x or 0.0)` on an optional number. -/
def orQ (o : Option ℚ) : ℚ :=
  match o with
  | none => 0
  | some q => q

/-- The line-boundary codepoints of Python `str.splitlines`. -/
def isLineBoundary (c : ℕ) : Bool :=
  c = 10 || c = 11 || c = 12 || c = 13 || c = 28 || c = 29 || c = 30
    || c = 133 || c = 8232 || c = 8233

/-- Worker for `str.splitlines`: `acc` holds the current line reversed;
`\r\n` counts as a single boundary; a trailing boundary does not open an
empty final line. -/
def splitlinesGo (acc : List ℕ) : List ℕ → List Text
  | [] => if acc = [] then [] else [acc.reverse]
  | 13 :: 10 :: rest => acc.reverse :: splitlinesGo [] rest
  | c :: rest =>
      if isLineBoundary c then acc.reverse :: splitlinesGo [] rest
      else splitlinesGo (c :: acc) rest

/-- Python `str.splitlines`. -/
def splitlines (t : Text) : List Text := splitlinesGo [] t

/-- Digit characters of a natural number, most significant first. -/
def natDigitChars (n : ℕ) : Text := ((natDigitsLSD n).map (fun d => 48 + d)).reverse

/-- Python `f"{x:.1f}"`: sign from the value, one rounded decimal. -/
def formatFixed1 (v : ℚ) : Text :=
  (if v < 0 then [45] else [])
    ++ natDigitChars ((roundHalfEven (|v| * 10)).toNat / 10)
    ++ [46] ++ [48 + (roundHalfEven (|v| * 10)).toNat % 10]

/-- Number of decimal digits of `n` (1 for 0). -/
def digitCount (n : ℕ) : ℕ := (natDigitsLSD n).length

/-- For `0 < a < 1`, the smallest `k` with `a * 10^k ≥ 1` (searched up to
the digit count of the denominator, which always suffices). -/
def smallNegExp (a : ℚ) : ℕ :=
  (((List.range (digitCount a.den + 1)).filter
    (fun k => decide (1 ≤ a * (10 : ℚ) ^ k))).headD 0)

/-- Decimal exponent of a positive rational: the `e` with
`10^e ≤ a < 10^(e+1)`. -/
def qExponent (a : ℚ) : ℤ :=
  if 1 ≤ a then (digitCount (⌊a⌋).toNat : ℤ) - 1
  else -(smallNegExp a : ℤ)

/-- Drop trailing zero characters of a fractional digit string. -/
def stripTrailZeros (frac : Text) : Text :=
  (frac.reverse.dropWhile (fun c => c == 48)).reverse

/-- Round a positive rational to 6 significant decimal digits, returning
the significand (6 digits) and the decimal exponent, with the carry case
(rounding up to a 7-digit significand) renormalized. -/
def sigDigits6 (a : ℚ) : ℕ × ℤ :=
  let e := qExponent a
  let m := (roundHalfEven (a * (10 : ℚ) ^ (5 - e))).toNat
  if 10 ^ 6 ≤ m then (m / 10, e + 1) else (m, e)

/-- Python `f"{x:g}"` (CPython `%g` with precision 6, idealized over ℚ):
up to 6 significant digits, trailing zeros stripped, fixed notation for
exponents in `[-4, 6)` and scientific notation (`d[.ddddd]e±XX`)
otherwise. -/
def formatG (v : ℚ) : Text :=
  if v = 0 then [48]
  else
    (if v < 0 then [45] else []) ++
      (let me := sigDigits6 |v|
       let ds := natDigitChars me.1
       if -4 ≤ me.2 ∧ me.2 < 6 then
         if me.2 < 0 then
           [48, 46] ++ List.replicate ((-me.2).toNat - 1) 48 ++ stripTrailZeros ds
         else
           ds.take (me.2.toNat + 1)
             ++ (let fp := stripTrailZeros (ds.drop (me.2.toNat + 1))
                 if fp = [] then [] else 46 :: fp)
       else
         ds.take 1
           ++ (let fp := stripTrailZeros (ds.drop 1)
               if fp = [] then [] else 46 :: fp)
           ++ [101] ++ (if me.2 < 0 then [45] else [43])
           ++ (if me.2.natAbs < 10 then [48, 48 + me.2.natAbs]
               else natDigitChars me.2.natAbs))

/-! ## Budget PDF rendering (`generate_budget_pdf`) -/

/-- The request payload dict as consumed by `generate_budget_pdf`
(`payload.model_dump()`): optional strings, optional percentages and the
item list (`payload.get("items") or []` is the identity on the list the
boundary passes). -/
structure BudgetPayload where
  company_name : Option Text
  company_email : Option Text
  client_name : Option Text
  client_email : Option Text
  currency : Option Text
  discount_percent : Option ℚ
  tax_percent : Option ℚ
  notes : Option Text
  items : List BudgetItem

/-- One row of the item table: sanitized description truncated at 120
characters, `f"{qty:g}"`, the unit price and the line total
`qty * unit_price`, each through `_safe_text`. -/
def itemRow (currency : Text) (it : BudgetItem) : List Text :=
  [st (it.description.take 120),
   st (formatG it.quantity),
   st (formatCurrency it.unit_price currency),
   st (formatCurrency (it.quantity * it.unit_price) currency)]

/-- One `row_total` line: sanitized label and formatted amount. -/
def rowTotal (currency : Text) (label : Text) (value : ℚ) : List Text :=
  [st label, st (formatCurrency value currency)]

/-- Everything `generate_budget_pdf` renders after the title and the
timestamp line, in source order: company block, client block, item table
header, item rows (or the "no items" placeholder), totals rows (discount
and tax rows only when the respective percentage is truthy, the discount
shown negated), and the notes block limited to 12 lines. -/
def restLines (p : BudgetPayload) : List Text :=
  let company_name := orText p.company_name (codes "Minha Empresa")
  let company_email := orText p.company_email []
  let client_name := orText p.client_name []
  let client_email := orText p.client_email []
  let currency := orText p.currency (codes "R$")
  let dp := orQ p.discount_percent
  let tp := orQ p.tax_percent
  let notes := orText p.notes []
  let totals := calcTotals p.items dp tp
  [st (codes "Dados da Empresa"), st company_name]
  ++ (if company_email = [] then [] else [st company_email])
  ++ [st (codes "Cliente")]
  ++ (if client_name = [] then [] else [st client_name])
  ++ (if client_email = [] then [] else [st client_email])
  ++ [st (codes "Item"), st (codes "Qtd"), st (codes "Unitário"), st (codes "Total")]
  ++ (if p.items = [] then [st (codes "Nenhum item informado.")]
      else (p.items.map (itemRow currency)).flatten)
  ++ rowTotal currency (codes "Subtotal:") totals.subtotal
  ++ (if dp = 0 then []
      else rowTotal currency (codes "Desconto (" ++ formatFixed1 dp ++ codes "%):")
        (-totals.discount))
  ++ (if tp = 0 then []
      else rowTotal currency (codes "Impostos (" ++ formatFixed1 tp ++ codes "%):")
        totals.tax)
  ++ rowTotal currency (codes "Total:") totals.total
  ++ (if notes = [] then []
      else st (codes "Observações") :: (splitlines (st notes)).take 12)

/-- The full sequence of text cells `generate_budget_pdf` renders: title,
`"Gerado em {now}"` (the strftime'd `datetime.now()`, passed in as the
clock value), then everything else. -/
def renderLines (p : BudgetPayload) (now : Text) : List Text :=
  st (codes "Orçamento") :: st (codes "Gerado em " ++ now) :: restLines p

/-- `generate_budget_pdf`: the final `pdf.output(dest="S").encode("latin-1")`
requires every rendered character to be in the latin-1 range; a character
outside it would raise (modelled as the error branch). -/
def generateBudgetPdf (p : BudgetPayload) (now : Text) : Except Unit (List Text) :=
  if (renderLines p now).all (fun line => line.all (fun c => decide (c ≤ 255))) then
    Except.ok (renderLines p now)
  else Except.error ()

lemma st_le255 (t : Text) : ∀ c ∈ st t, c ≤ 255 := by
  intro c hc
  unfold st safeText at hc
  simp only [List.mem_map] at hc
  obtain ⟨a, _, ha⟩ := hc
  by_cases h : a ≤ 255
  · rw [if_pos h] at ha; omega
  · rw [if_neg h] at ha; omega

lemma splitlinesGo_all :
    ∀ (N : ℕ) (acc l : List ℕ), l.length = N →
      (∀ c ∈ l, c ≤ 255) → (∀ c ∈ acc, c ≤ 255) →
      ∀ s ∈ splitlinesGo acc l, ∀ c ∈ s, c ≤ 255 := by
  intro N
  induction N using Nat.strong_induction_on with
  | _ N ih =>
      intro acc l hlen hl hacc s hs
      rw [splitlinesGo.eq_def] at hs
      split at hs
      · split_ifs at hs with h
        · simp at hs
        · simp only [List.mem_singleton] at hs
          subst hs
          intro c hc
          exact hacc c (List.mem_reverse.mp hc)
      · rename_i rest
        rcases List.mem_cons.mp hs with h | h
        · subst h
          intro c hc
          exact hacc c (List.mem_reverse.mp hc)
        · exact ih rest.length (by subst hlen; simp only [List.length_cons]; omega) [] rest rfl
            (fun c hc => hl c (by simp [hc])) (by simp) s h
      · rename_i c0 rest _
        split_ifs at hs with hb
        · rcases List.mem_cons.mp hs with h | h
          · subst h
            intro c hc
            exact hacc c (List.mem_reverse.mp hc)
          · exact ih rest.length (by subst hlen; simp only [List.length_cons]; omega) [] rest rfl
              (fun c hc => hl c (by simp [hc])) (by simp) s h
        · exact ih rest.length (by subst hlen; simp only [List.length_cons]; omega) (c0 :: acc) rest rfl
            (fun c hc => hl c (by simp [hc]))
            (fun c hc => by
              rcases List.mem_cons.mp hc with h | h
              · subst h; exact hl c (by simp)
              · exact hacc c h) s hs

lemma splitlines_st_all (t : Text) : ∀ s ∈ splitlines (st t), ∀ c ∈ s, c ≤ 255 :=
  splitlinesGo_all (st t).length [] (st t) rfl (st_le255 t) (by simp)

lemma rowTotal_le255 (cur lbl : Text) (v : ℚ) :
    ∀ l ∈ rowTotal cur lbl v, ∀ c ∈ l, c ≤ 255 := by
  intro l hl
  unfold rowTotal at hl
  rcases List.mem_cons.mp hl with h | h
  · subst h; exact st_le255 _
  · simp only [List.mem_singleton] at h; subst h; exact st_le255 _

lemma itemRows_le255 (cur : Text) (items : List BudgetItem) :
    ∀ l ∈ (items.map (itemRow cur)).flatten, ∀ c ∈ l, c ≤ 255 := by
  intro l hl
  rw [List.mem_flatten] at hl
  obtain ⟨row, hrow, hlrow⟩ := hl
  rw [List.mem_map] at hrow
  obtain ⟨it, _, rfl⟩ := hrow
  unfold itemRow at hlrow
  rcases List.mem_cons.mp hlrow with h | h
  · subst h; exact st_le255 _
  rcases List.mem_cons.mp h with h | h
  · subst h; exact st_le255 _
  rcases List.mem_cons.mp h with h | h
  · subst h; exact st_le255 _
  simp only [List.mem_singleton] at h
  subst h; exact st_le255 _

lemma iteLines_le255 (b : Prop) (inst : Decidable b) (xs ys : List Text)
    (hx : ∀ l ∈ xs, ∀ c ∈ l, c ≤ 255) (hy : ∀ l ∈ ys, ∀ c ∈ l, c ≤ 255) :
    ∀ l ∈ (@ite _ b inst xs ys), ∀ c ∈ l, c ≤ 255 := by
  intro l hl
  by_cases hb : b
  · rw [if_pos hb] at hl; exact hx l hl
  · rw [if_neg hb] at hl; exact hy l hl

lemma nilLines_le255 : ∀ l ∈ ([] : List Text), ∀ c ∈ l, c ≤ 255 := by simp

lemma singleSt_le255 (t : Text) : ∀ l ∈ ([st t] : List Text), ∀ c ∈ l, c ≤ 255 := by
  intro l hl
  simp only [List.mem_singleton] at hl
  subst hl
  exact st_le255 t

/-- Every rendered line of the budget document is latin-1 clean: each cell
passes through `_safe_text` and the notes lines are split from sanitized
text. -/
lemma renderLines_latin1 (p : BudgetPayload) (now : Text) :
    ∀ line ∈ renderLines p now, ∀ c ∈ line, c ≤ 255 := by
  refine List.forall_mem_cons.mpr ⟨st_le255 _, ?_⟩
  refine List.forall_mem_cons.mpr ⟨st_le255 _, ?_⟩
  simp only [restLines]
  refine List.forall_mem_append.mpr ⟨?_, ?_⟩
  swap
  · intro l hl
    by_cases hn : orText p.notes [] = []
    · rw [if_pos hn] at hl; simp at hl
    · rw [if_neg hn] at hl
      rcases List.mem_cons.mp hl with h | h
      · subst h; exact st_le255 _
      · exact splitlines_st_all _ l (List.take_subset _ _ h)
  refine List.forall_mem_append.mpr ⟨?_, rowTotal_le255 _ _ _⟩
  refine List.forall_mem_append.mpr ⟨?_, iteLines_le255 _ _ _ _ nilLines_le255 (rowTotal_le255 _ _ _)⟩
  refine List.forall_mem_append.mpr ⟨?_, iteLines_le255 _ _ _ _ nilLines_le255 (rowTotal_le255 _ _ _)⟩
  refine List.forall_mem_append.mpr ⟨?_, rowTotal_le255 _ _ _⟩
  refine List.forall_mem_append.mpr
    ⟨?_, iteLines_le255 _ _ _ _ (singleSt_le255 _) (itemRows_le255 _ _)⟩
  refine List.forall_mem_append.mpr ⟨?_, ?_⟩
  swap
  · refine List.forall_mem_cons.mpr ⟨st_le255 _, ?_⟩
    refine List.forall_mem_cons.mpr ⟨st_le255 _, ?_⟩
    refine List.forall_mem_cons.mpr ⟨st_le255 _, ?_⟩
    exact singleSt_le255 _
  refine List.forall_mem_append.mpr ⟨?_, iteLines_le255 _ _ _ _ nilLines_le255 (singleSt_le255 _)⟩
  refine List.forall_mem_append.mpr ⟨?_, iteLines_le255 _ _ _ _ nilLines_le255 (singleSt_le255 _)⟩
  refine List.forall_mem_append.mpr ⟨?_, singleSt_le255 _⟩
  refine List.forall_mem_append.mpr ⟨?_, iteLines_le255 _ _ _ _ nilLines_le255 (singleSt_le255 _)⟩
  refine List.forall_mem_cons.mpr ⟨st_le255 _, ?_⟩
  exact singleSt_le255 _

/-- `generate_budget_pdf` always reaches the `latin-1` encode with clean
text, hence always returns the rendered document. -/
lemma generateBudgetPdf_ok (p : BudgetPayload) (now : Text) :
    generateBudgetPdf p now = Except.ok (renderLines p now) := by
  unfold generateBudgetPdf
  rw [if_pos]
  rw [List.all_eq_true]
  intro line hline
  rw [List.all_eq_true]
  intro c hc
  exact decide_eq_true (renderLines_latin1 p now line hline c hc)

/-- C8: `_safe_text` never raises: `None` yields the empty string, every
character outside the latin-1 range is replaced (positionally) by the
substitution character `?` so the sanitized text is entirely latin-1, and
the budget PDF is still produced for every payload, including ones whose
strings contain out-of-range characters. -/
theorem safeText_never_raises (p : BudgetPayload) (now : Text) :
    safeText none = []
    ∧ (∀ t : Text, ∀ i : ℕ, (safeText (some t))[i]?
        = (t[i]?).map (fun c => if c ≤ 255 then c else 63))
    ∧ (∀ t : Text, ∀ c ∈ safeText (some t), c ≤ 255)
    ∧ generateBudgetPdf p now = Except.ok (renderLines p now) := by
  refine ⟨rfl, ?_, ?_, generateBudgetPdf_ok p now⟩
  · intro t i
    unfold safeText
    exact List.getElem?_map ..
  · intro t c hc
    exact st_le255 t c hc

/-- A payload whose strings contain characters outside latin-1. -/
def demoPayload : BudgetPayload :=
  { company_name := some (codes "Empresa Ação")
    company_email := none
    client_name := some (codes "Cliente €")
    client_email := none
    currency := some (codes "R$")
    discount_percent := some 10
    tax_percent := some 5
    notes := some (codes "Prazo: 10 dias €")
    items := [⟨codes "Serviço €special", 2, 50⟩] }

/-- Witness for C8: the euro sign (codepoint 8364 > 255) appears in the
payload, is replaced by `?`, and the document is still produced. -/
theorem safeText_never_raises_witness :
    (255 < 8364 ∧ 8364 ∈ codes "Cliente €")
    ∧ safeText (some (codes "a€b")) = codes "a?b"
    ∧ generateBudgetPdf demoPayload (codes "01/01/2026 12:00")
        = Except.ok (renderLines demoPayload (codes "01/01/2026 12:00")) :=
  ⟨⟨by norm_num, by decide⟩, by decide,
    (safeText_never_raises demoPayload (codes "01/01/2026 12:00")).2.2.2⟩

/-- C9: rendering is a pure function of the payload and the clock reading:
with the embedded timestamp line removed, two invocations of
`generate_budget_pdf` on the same payload produce identical output
whatever the two clock readings were. -/
theorem generateBudgetPdf_deterministic (p : BudgetPayload) (now1 now2 : Text) :
    (renderLines p now1).eraseIdx 1 = (renderLines p now2).eraseIdx 1
    ∧ (generateBudgetPdf p now1).map (fun ls => ls.eraseIdx 1)
        = (generateBudgetPdf p now2).map (fun ls => ls.eraseIdx 1) := by
  have h : ∀ n : Text, (renderLines p n).eraseIdx 1
      = st (codes "Orçamento") :: restLines p := fun n => rfl
  refine ⟨by rw [h, h], ?_⟩
  rw [generateBudgetPdf_ok p now1, generateBudgetPdf_ok p now2]
  show Except.ok ((renderLines p now1).eraseIdx 1)
      = Except.ok ((renderLines p now2).eraseIdx 1)
  rw [h, h]

/-- C10 (implicit behavior): the description cell of an item row is the
sanitized description truncated to its first 120 characters (truncation
and sanitizing commute, characterwise), while the row's line total and the
document totals are computed from the full item data — in particular the
totals are invariant under any change of the descriptions. -/
theorem itemRow_truncates_description (it : BudgetItem) (cur : Text)
    (items : List BudgetItem) (dp tp : ℚ) (f : Text → Text) :
    itemRow cur it
      = [(st it.description).take 120,
         st (formatG it.quantity),
         st (formatCurrency it.unit_price cur),
         st (formatCurrency (it.quantity * it.unit_price) cur)]
    ∧ calcTotals (items.map (fun j => { j with description := f j.description })) dp tp
        = calcTotals items dp tp := by
  constructor
  · unfold itemRow st safeText
    simp only [List.map_take]
  · rw [calcTotals_eq, calcTotals_eq]
    have hsub : subtotalOf (items.map (fun j => { j with description := f j.description }))
        = subtotalOf items := by
      unfold subtotalOf
      rw [List.map_map]
      rfl
    rw [hsub]

end TPV
